import Mathlib

/-!
Verification of the resumable batch translation pipeline of the Sub-auto
repository against its natural-language specification.

The Python sources are shallowly embedded: strings become `List Char`,
Python floats become `ℚ` (real arithmetic idealized over the rationals),
Python sets become lists queried by membership, dictionaries become
insertion-ordered association lists, and the regular expressions of the
source are compiled by hand into character scanners that reproduce the
leftmost-match/backtracking behaviour of CPython's `re` module for the
concrete patterns appearing in the code.  Every definition is executable
and kernel-reducible (structural recursion, with an explicit fuel argument
where the Python loop consumes a non-structural amount of input; the fuel
is always instantiated with the input length, which is an upper bound on
the number of steps since every step consumes at least one character).
-/

/-! ## Basic string utilities -/

/-- Python strings, embedded as lists of characters. -/
abbrev Str := List Char

/-- Python `str.lower()` (the source only compares ASCII). -/
def lowerStr (s : Str) : Str := s.map Char.toLower

/-- The six ASCII whitespace characters recognized by Python's `str.strip()`
and by the regex class backslash-s on the ASCII range. -/
def isWsChar (c : Char) : Bool :=
  c = ' ' || c = '\t' || c = '\n' || c = '\r' || c = '\x0b' || c = '\x0c'

/-- ASCII decimal digit test (regex class backslash-d on the ASCII range). -/
def isDigitChar (c : Char) : Bool := '0' ≤ c && c ≤ '9'

/-- Python `str.strip()`: drop whitespace from both ends. -/
def stripStr (s : Str) : Str :=
  ((s.dropWhile isWsChar).reverse.dropWhile isWsChar).reverse

/-- Does `pat` occur at the head of `s`? -/
def headMatches : Str → Str → Bool
  | _, [] => true
  | [], _ :: _ => false
  | c :: cs, p :: ps => c = p && headMatches cs ps

/-- Python `pat in hay` substring test. -/
def containsSub : Str → Str → Bool
  | [], pat => pat.isEmpty
  | c :: rest, pat => headMatches (c :: rest) pat || containsSub rest pat

/-- Numeric value of a run of ASCII digits, Python `int(run)`
(leading zeros allowed, never raises on a nonempty digit run). -/
def digitsToNat (ds : Str) : Nat :=
  ds.foldl (fun n c => n * 10 + (c.toNat - '0'.toNat)) 0

/-- Decimal digit string of a natural number, Python `str(n)` / `"{}".format(n)`. -/
def natStr (n : Nat) : Str := Nat.toDigits 10 n

/-- Python `s.replace(pat, rep)` specialized to a nonempty `pat` (fuelled;
the source only ever replaces nonempty placeholder tokens, for which the
left-to-right non-rescanning semantics below is exactly CPython's). -/
def replaceAllF : Nat → Str → Str → Str → Str
  | 0, s, _, _ => s
  | fuel + 1, s, pat, rep =>
    match s with
    | [] => []
    | c :: rest =>
      if pat ≠ [] ∧ pat.isPrefixOf s then
        rep ++ replaceAllF fuel (s.drop pat.length) pat rep
      else
        c :: replaceAllF fuel rest pat rep

/-- Python `s.replace(pat, rep)` for nonempty `pat`. -/
def replaceAll (s pat rep : Str) : Str := replaceAllF s.length s pat rep

/-! ## StyleHandler (src/core/style_handler.py)

`StyleHandler.SKIP_TRANSLATION_STYLES`, `POSITIONING_TAGS`,
`should_skip_translation`, `extract_styles`, `prepare_for_translation` and
`restore_styles`.  The regexes of the source are the anchored repetition
of brace groups, and the inline tag pattern: an opening brace, a
backslash, one or more non-closing-brace characters, a closing brace. -/

/-- `StyleHandler.SKIP_TRANSLATION_STYLES` (a Python set of lowercase names). -/
def SKIP_TRANSLATION_STYLES : List Str :=
  ["sign".toList, "signs".toList, "op".toList, "ed".toList, "opening".toList,
   "ending".toList, "title".toList, "card".toList, "note".toList,
   "notes".toList, "karaoke".toList]

/-- `StyleHandler.POSITIONING_TAGS`: the literal substrings the four regexes
of the source search for. -/
def POSITIONING_TAGS : List Str :=
  ["\\pos(".toList, "\\move(".toList, "\\org(".toList, "\\clip(".toList]

/-- `StyleHandler.should_skip_translation(style_name, text)`. -/
def should_skip_translation (styleName text : Str) : Bool :=
  SKIP_TRANSLATION_STYLES.contains (lowerStr styleName)
  || POSITIONING_TAGS.any (fun p => containsSub text p)

/-- One brace group of the anchored pattern: an opening brace, any
characters other than a closing brace, then a closing brace.  Returns the
group (braces included) and the rest. -/
def matchBraceGroup : Str → Option (Str × Str)
  | c :: rest =>
    if c = '\x7b' then
      let mid := rest.takeWhile (fun d => d ≠ '\x7d')
      match rest.dropWhile (fun d => d ≠ '\x7d') with
      | d :: tail => if d = '\x7d' then some ('\x7b' :: (mid ++ ['\x7d']), tail) else none
      | [] => none
    else none
  | [] => none

/-- Greedy repetition of brace groups at the start of the line
(`re.match` of the prefix pattern in `extract_styles`): returns the
concatenated matched groups and the remaining text. -/
def leadTagsF : Nat → Str → Str × Str
  | 0, s => ([], s)
  | fuel + 1, s =>
    match matchBraceGroup s with
    | some (g, rest) => let (gs, r) := leadTagsF fuel rest; (g ++ gs, r)
    | none => ([], s)

/-- Prefix tags and remaining text of a line (`prefix_tags`, `remaining_text`
in `extract_styles`). -/
def leadTags (s : Str) : Str × Str := leadTagsF s.length s

/-- One inline tag of the pattern in `extract_styles`: an opening brace, a
backslash, one or more characters other than a closing brace, a closing
brace. -/
def tryInlineTag : Str → Option (Str × Str)
  | c :: c' :: rest =>
    if c = '\x7b' ∧ c' = '\\' then
      let mid := rest.takeWhile (fun d => d ≠ '\x7d')
      if mid = [] then none
      else
        match rest.dropWhile (fun d => d ≠ '\x7d') with
        | d :: tail =>
          if d = '\x7d' then some ('\x7b' :: '\\' :: (mid ++ ['\x7d']), tail) else none
        | [] => none
    else none
  | _ => none

/-- The `re.finditer` loop of `extract_styles`: returns the tag-stripped
clean text together with each inline tag and its character offset in the
clean text (leftmost, non-overlapping matches). -/
def scanInlineF : Nat → Str → Str × List (Nat × Str)
  | 0, s => (s, [])
  | fuel + 1, s =>
    match s with
    | [] => ([], [])
    | c :: rest =>
      match tryInlineTag s with
      | some (tag, after) =>
        let (clean, tags) := scanInlineF fuel after
        (clean, (0, tag) :: tags)
      | none =>
        let (clean, tags) := scanInlineF fuel rest
        (c :: clean, tags.map (fun p => (p.1 + 1, p.2)))

/-- `StyleInfo` of src/core/style_handler.py. -/
structure StyleInfo where
  prefixTags : Str
  cleanText : Str
  inlineTags : List (Nat × Str)
  hasComplexStyling : Bool
  deriving Repr, DecidableEq

/-- `StyleHandler.extract_styles(text)`. -/
def extract_styles (text : Str) : StyleInfo :=
  let hasComplex := POSITIONING_TAGS.any (fun p => containsSub text p)
  let (pt, rem) := leadTags text
  let (clean, tags) := scanInlineF rem.length rem
  ⟨pt, clean, tags, hasComplex⟩

/-- The metadata dictionary produced by `prepare_for_translation`: either
the skip form (which stores the original line) or the non-skip form with
the prefix tags, the insertion-ordered placeholder-to-tag map, and the
complex-styling flag. -/
inductive StyleMeta where
  | skipMeta (original : Str)
  | keepMeta (prefixTags : Str) (inlineTags : List (Str × Str)) (hasComplex : Bool)
  deriving Repr, DecidableEq

/-- `StyleHandler.placeholder_pattern.format(idx)`. -/
def placeholderFor (idx : Nat) : Str :=
  "<<STYLE_".toList ++ natStr idx ++ ">>".toList

/-- Stable insertion (descending by position) matching Python's stable
`sorted(tags, key=pos, reverse=True)`: an element is placed after every
already-placed element whose key is greater than or equal to its own. -/
def insertDesc (x : Nat × Str) : List (Nat × Str) → List (Nat × Str)
  | [] => [x]
  | y :: ys => if x.1 ≤ y.1 then y :: insertDesc x ys else x :: y :: ys

/-- Python `sorted(tags, key=lambda x: x[0], reverse=True)` (stable). -/
def sortDescStable (l : List (Nat × Str)) : List (Nat × Str) :=
  l.foldl (fun acc x => insertDesc x acc) []

/-- The placeholder-insertion loop of `prepare_for_translation`: for each
(position, tag) of the reverse-sorted list, numbered from 0, record the
placeholder in the map and splice it into the text at the position. -/
def insertPlaceholders (sorted : List (Nat × Str)) (clean : Str) :
    Str × List (Str × Str) :=
  (sorted.enum).foldl
    (fun (acc : Str × List (Str × Str)) ip =>
      let ph := placeholderFor ip.1
      (acc.1.take ip.2.1 ++ ph ++ acc.1.drop ip.2.1, acc.2 ++ [(ph, ip.2.2)]))
    (clean, [])

/-- `StyleHandler.prepare_for_translation(text, style_name)`. -/
def prepare_for_translation (text styleName : Str) : Str × StyleMeta :=
  if should_skip_translation styleName text then
    (text, .skipMeta text)
  else
    let si := extract_styles text
    if si.inlineTags = [] then
      (si.cleanText, .keepMeta si.prefixTags [] si.hasComplexStyling)
    else
      let (withPh, phMap) := insertPlaceholders (sortDescStable si.inlineTags) si.cleanText
      (withPh, .keepMeta si.prefixTags phMap si.hasComplexStyling)

/-- `StyleHandler.restore_styles(translated_text, metadata)`. -/
def restore_styles (translated : Str) (meta : StyleMeta) : Str :=
  match meta with
  | .skipMeta original => original
  | .keepMeta pt tags _ =>
    let r := tags.foldl (fun acc pr => replaceAll acc pr.1 pr.2) translated
    if pt = [] then r else pt ++ r

/-- Identity-translation round trip: prepare a line, "translate" it with
the identity function, and restore it. -/
def styleRoundTrip (text styleName : Str) : Str :=
  let pm := prepare_for_translation text styleName
  restore_styles pm.1 pm.2

example : styleRoundTrip "hello".toList "Default".toList = "hello".toList := by decide

/-! ## SubtitleLine (src/core/subtitle_parser.py)

Only the fields the translation pipeline reads (`index`, `text`, `style`)
are carried; the timing fields (`start_ms`, `end_ms`) are never consulted
by the code under verification. -/

/-- `SubtitleLine` restricted to the fields the pipeline reads. -/
structure SubtitleLine where
  index : Nat
  text : Str
  style : Str
  deriving Repr, DecidableEq

/-! ## Response parsing (src/core/translator.py, `Translator._parse_response`)

The source extracts matches of the pattern: a bracketed decimal index,
optional whitespace, then a lazily-matched nonempty text group that ends
at the lookahead "newline followed by a bracketed decimal index" or at the
end of input (`re.DOTALL`).  The scanner below reproduces CPython's
leftmost-match and backtracking behaviour for that pattern: the greedy
whitespace run backs off by one character exactly when nothing is left
for the nonempty lazy group, and the lazy group otherwise ends at the
first position whose remainder is empty or starts a newline-marker pair. -/

/-- Does a bracketed decimal index (the lookahead's marker) start here? -/
def markerHere : Str → Bool
  | c :: rest =>
    c = '[' && !(rest.takeWhile isDigitChar).isEmpty
      && (match rest.dropWhile isDigitChar with
          | d :: _ => d = ']'
          | [] => false)
  | [] => false

/-- The lazy group may stop when the remaining input is empty or starts
with a newline immediately followed by a marker. -/
def lookaheadOk : Str → Bool
  | [] => true
  | c :: rest => c = '\n' && markerHere rest

/-- Consume the lazy text group: at least one character, extended until
the first stop position. -/
def takeSeg : Str → Str × Str
  | [] => ([], [])
  | c :: rest =>
    if lookaheadOk rest then ([c], rest)
    else
      let (t, r) := takeSeg rest
      (c :: t, r)

/-- One match attempt of the response pattern at the head of the input:
returns the parsed index, the raw (unstripped) text group, and the rest of
the input after the match. -/
def tryParseAt : Str → Option (Nat × Str × Str)
  | c :: rest =>
    if c = '[' then
      let ds := rest.takeWhile isDigitChar
      if ds.isEmpty then none
      else
        match rest.dropWhile isDigitChar with
        | d :: r2 =>
          if d = ']' then
            let ws := r2.takeWhile isWsChar
            match r2.dropWhile isWsChar with
            | [] =>
              -- nothing follows the greedy whitespace run: the run backs
              -- off by one character, which becomes the whole text group
              match ws.getLast? with
              | some w => some (digitsToNat ds, [w], [])
              | none => none
            | r3 => let (seg, after) := takeSeg r3; some (digitsToNat ds, seg, after)
          else none
        | [] => none
    else none
  | [] => none

/-- The `re.findall` scan: leftmost matches, resuming after each match
(fuelled by the input length; every match consumes at least one
character). -/
def scanMatchesF : Nat → Str → List (Nat × Str)
  | 0, _ => []
  | fuel + 1, s =>
    match s with
    | [] => []
    | _ :: rest =>
      match tryParseAt s with
      | some (i, seg, after) => (i, stripStr seg) :: scanMatchesF fuel after
      | none => scanMatchesF fuel rest

/-- `Translator._parse_response(response_text, original_lines)` with the
expected index set passed explicitly: every match whose index is in the
expected set, in first-seen order, text stripped. -/
def parse_response (raw : Str) (expected : List Nat) : List (Nat × Str) :=
  (scanMatchesF raw.length raw).filter (fun p => expected.contains p.1)

/-! ## Prompt building (src/core/translator.py, `Translator.translate_batch`)

The batch prompt is the `TRANSLATION_PROMPT` template with the source and
target languages, the rolling context block, and the lines block spliced
in.  The lines block joins one entry per line: the bracketed index, a
space, and the line's raw `text` field. -/

/-- One entry of the lines block: the bracketed index, a space, the raw text. -/
def lineEntry (l : SubtitleLine) : Str :=
  '[' :: (natStr l.index ++ (']' :: ' ' :: l.text))

/-- The lines block of the prompt (newline-joined entries). -/
def linesTextOf (lines : List SubtitleLine) : Str :=
  List.intercalate ['\n'] (lines.map lineEntry)

/-- `Translator.TRANSLATION_PROMPT` up to its source-language slot. -/
def PROMPT_PART_1 : Str :=
  ("You are a professional subtitle translator. Translate the following " ++
   "subtitle lines from ").toList

/-- The template between the source-language and target-language slots. -/
def PROMPT_PART_2 : Str := " to ".toList

/-- The template between the target-language slot and the context slot. -/
def PROMPT_PART_3 : Str :=
  (".\n\nCRITICAL RULES:\n" ++
   "1. Use natural, spoken Indonesian suitable for subtitles\n" ++
   "2. Prioritize meaning, tone, and emotion over literal translation\n" ++
   "3. Do not force-translate commonly used loanwords\n" ++
   "4. Keep names, proper nouns, and Japanese honorifics unchanged\n" ++
   "5. Preserve formatting markers like \\N exactly\n" ++
   "6. If a line is already in the target language or is a non-dialogue cue, keep it as-is\n" ++
   "7. Keep translations concise and subtitle-friendly\n\nCONTEXT:\n").toList

/-- The template between the context slot and the lines slot. -/
def PROMPT_PART_4 : Str := "\n\nTRANSLATE:\n".toList

/-- The template after the lines slot. -/
def PROMPT_PART_5 : Str := "\n\nOUTPUT:\n[NUMBER] translated text".toList

/-- `TRANSLATION_PROMPT.format(source_lang, target_lang, context, lines)`. -/
def buildPrompt (sourceLang targetLang context linesBlock : Str) : Str :=
  PROMPT_PART_1 ++ sourceLang ++ PROMPT_PART_2 ++ targetLang ++ PROMPT_PART_3
    ++ context ++ PROMPT_PART_4 ++ linesBlock ++ PROMPT_PART_5

/-! ## The batch loop (src/core/translator.py, `Translator.translate_all`)

The loop is embedded over an oracle `respond : Nat → Option Str` giving,
per batch number, the raw provider response of a batch whose API call
eventually succeeded (`translate_batch` then returns `success=True`, full
or partial, with `_parse_response`'s output), or `none` when the batch
failed with an exception (`translate_batch` returns `success=False` with
no lines).  Stop/pause flags are never raised (a full, uninterrupted run)
and no resume state is loaded, matching a fresh job.  Token accounting,
logging, progress callbacks and the inter-batch sleep do not affect the
merged output and are not carried. -/

/-- The batch split `[lines[i:i+batch_size] for i in range(0, len, batch_size)]`
(fuelled; `batchSize = 0` raises in Python and is excluded by hypothesis
wherever it matters). -/
def chunksF : Nat → Nat → List α → List (List α)
  | 0, _, _ => []
  | _, _, [] => []
  | fuel + 1, bs, l => l.take bs :: chunksF fuel bs (l.drop bs)

/-- The batch split of `translate_all`. -/
def chunks (bs : Nat) (l : List α) : List (List α) := chunksF l.length bs l

/-- The indices of a batch (`batch_indices` in `translate_all`). -/
def batchIdxList (b : List SubtitleLine) : List Nat := b.map (fun l => l.index)

/-- The mutable pair (`all_translations`, `completed_indices`) of
`translate_all`. -/
structure JobAcc where
  all : List (Nat × Str)
  completed : List Nat
  deriving Repr, DecidableEq

/-- The success branch of the batch loop: append each parsed pair whose
index is not yet completed, marking it completed. -/
def mergeParsed : List (Nat × Str) → JobAcc → JobAcc
  | [], acc => acc
  | (i, t) :: rest, acc =>
    if i ∈ acc.completed then mergeParsed rest acc
    else mergeParsed rest ⟨acc.all ++ [(i, t)], acc.completed ++ [i]⟩

/-- The failure branch of the batch loop: substitute the original text of
every line not yet completed; the completed set is left unchanged (as in
the source). -/
def mergeFailed : List SubtitleLine → JobAcc → JobAcc
  | [], acc => acc
  | l :: rest, acc =>
    if l.index ∈ acc.completed then mergeFailed rest acc
    else mergeFailed rest ⟨acc.all ++ [(l.index, l.text)], acc.completed⟩

/-- The `for batch_idx, batch in enumerate(batches)` loop body of
`translate_all`: skip a batch whose indices are all completed, otherwise
merge the parsed response (success) or the untranslated originals
(failure). -/
def processBatches (respond : Nat → Option Str) :
    List (Nat × List SubtitleLine) → JobAcc → JobAcc
  | [], acc => acc
  | (bi, b) :: rest, acc =>
    let acc' :=
      if (batchIdxList b).all (fun i => decide (i ∈ acc.completed)) then acc
      else
        match respond bi with
        | some raw => mergeParsed (parse_response raw (batchIdxList b)) acc
        | none => mergeFailed b acc
    processBatches respond rest acc'

/-- The final `all_translations.sort(key=lambda x: x[0])` (Python's sort is
stable; `List.insertionSort` with the index order is stable in the same
sense). -/
def sortByIdx (l : List (Nat × Str)) : List (Nat × Str) :=
  l.insertionSort (fun a b => a.1 ≤ b.1)

/-- `Translator.translate_all` over the response oracle: the merged,
index-sorted translation list of a fresh, uninterrupted job. -/
def translate_all (respond : Nat → Option Str) (lines : List SubtitleLine)
    (batchSize : Nat) : List (Nat × Str) :=
  sortByIdx (processBatches respond ((chunks batchSize lines).enum) ⟨[], []⟩).all

/-! ## Retry engine (src/core/retry_handler.py and the duplicate class in
src/core/translator.py)

The repository contains two `NetworkRetryHandler` classes with identical
`is_retryable_error` and `execute_with_retry` bodies.  They differ in
`calculate_delay`: the one in src/core/retry_handler.py first parses a
provider-suggested delay out of the error message; the one in
src/core/translator.py (the class `Translator.__init__` instantiates for
the pipeline) takes no error argument and always uses the backoff formula.

Python floats are idealized as rationals.  The jitter perturbation
`random.uniform(-delay*0.25, delay*0.25)` is modelled by passing the drawn
value in as an explicit argument; it is unused whenever `jitter` is false.
Errors are modelled by their message together with a flag recording
whether the exception is one of the `NETWORK_ERRORS` types (the
`isinstance` check of the source). -/

/-- `RetryConfig` (identical in both modules). -/
structure RetryConfig where
  maxRetries : Nat
  initialDelay : ℚ
  maxDelay : ℚ
  exponentialBase : ℚ
  jitter : Bool
  retryOnRateLimit : Bool
  retryOnServerError : Bool
  deriving Repr, DecidableEq

/-- The default `RetryConfig()` of the source. -/
def defaultRetryConfig : RetryConfig :=
  ⟨5, 1, 60, 2, true, true, true⟩

/-- A raised Python exception: its `str()` message and whether its type is
one of the `NETWORK_ERRORS` classes. -/
structure PyError where
  isNetworkType : Bool
  msg : Str
  deriving Repr, DecidableEq

/-- The network keyword list of `is_retryable_error`. -/
def networkKeywords : List Str :=
  ["connection".toList, "timeout".toList, "timed out".toList, "network".toList,
   "unreachable".toList, "reset".toList, "refused".toList, "broken pipe".toList,
   "eof".toList, "ssl".toList, "certificate".toList, "handshake".toList,
   "dns".toList, "resolve".toList, "socket".toList, "connect".toList,
   "incomplete".toList]

/-- The rate-limit keyword list of `is_retryable_error`. -/
def rateLimitKeywords : List Str :=
  ["rate".toList, "limit".toList, "quota".toList, "429".toList, "too many".toList]

/-- The server-error keyword list of `is_retryable_error`. -/
def serverErrorKeywords : List Str :=
  ["500".toList, "502".toList, "503".toList, "504".toList,
   "server error".toList, "internal error".toList]

/-- The provider-transient keyword list of `is_retryable_error`. -/
def googleRetryableKeywords : List Str :=
  ["resource_exhausted".toList, "unavailable".toList, "deadline_exceeded".toList,
   "internal".toList, "aborted".toList]

/-- `NetworkRetryHandler.is_retryable_error(error)` (identical in both
modules). -/
def is_retryable_error (cfg : RetryConfig) (e : PyError) : Bool :=
  let s := lowerStr e.msg
  e.isNetworkType
  || networkKeywords.any (fun k => containsSub s k)
  || (cfg.retryOnRateLimit && rateLimitKeywords.any (fun k => containsSub s k))
  || (cfg.retryOnServerError && serverErrorKeywords.any (fun k => containsSub s k))
  || googleRetryableKeywords.any (fun k => containsSub s k)

/-- Strip a literal pattern case-insensitively from the head of the input
(the pattern is given lowercase). -/
def stripLitCI : Str → Str → Option Str
  | [], s => some s
  | _ :: _, [] => none
  | p :: ps, c :: cs => if c.toLower = p then stripLitCI ps cs else none

/-- Digit-or-dot character class of the suggested-delay capture group. -/
def isDigitDot (c : Char) : Bool := isDigitChar c || c = '.'

/-- One match attempt of the suggested-delay pattern at the head of the
input: one of the two literal phrases, at least one whitespace character,
the captured digit-and-dot run, optional whitespace, then the letter s
(case-insensitive).  Returns the captured group.  Backtracking cannot help
here: the three character classes involved are pairwise disjoint. -/
def suggestAt (s : Str) : Option Str :=
  let afterLit :=
    match stripLitCI "try again in".toList s with
    | some r => some r
    | none => stripLitCI "retry after".toList s
  match afterLit with
  | none => none
  | some r1 =>
    if (r1.takeWhile isWsChar).isEmpty then none
    else
      let r2 := r1.dropWhile isWsChar
      let g := r2.takeWhile isDigitDot
      if g.isEmpty then none
      else
        match (r2.dropWhile isDigitDot).dropWhile isWsChar with
        | c :: _ => if c.toLower = 's' then some g else none
        | [] => none

/-- The `re.search` of `calculate_delay` in src/core/retry_handler.py:
the captured group of the leftmost match of the suggested-delay pattern. -/
def findSuggestedF : Nat → Str → Option Str
  | 0, _ => none
  | fuel + 1, s =>
    match s with
    | [] => none
    | _ :: rest =>
      match suggestAt s with
      | some g => some g
      | none => findSuggestedF fuel rest

/-- Leftmost captured suggested delay in an error message. -/
def findSuggested (s : Str) : Option Str := findSuggestedF s.length s

/-- Python `float(g)` for a string over digits and dots: defined exactly
when `g` holds at least one digit and at most one dot (otherwise `float`
raises `ValueError`). -/
def pyFloatOfGroup (g : Str) : Option ℚ :=
  if g.count '.' ≤ 1 ∧ g.any isDigitChar then
    let ip := g.takeWhile (fun c => c ≠ '.')
    let fp := (g.dropWhile (fun c => c ≠ '.')).drop 1
    some ((digitsToNat ip : ℚ) + (digitsToNat fp : ℚ) / (10 : ℚ) ^ fp.length)
  else none

/-- The exponential-backoff branch shared by both `calculate_delay`
bodies: `max(0.1, min(initial * base ** attempt, max_delay))`, with the
drawn jitter perturbation added when jitter is enabled. -/
def backoffDelay (cfg : RetryConfig) (attempt : Nat) (rand : ℚ) : ℚ :=
  let delay := min (cfg.initialDelay * cfg.exponentialBase ^ attempt) cfg.maxDelay
  let delay' := if cfg.jitter then delay + rand else delay
  max (1 / 10) delay'

/-- `NetworkRetryHandler.calculate_delay(attempt, error)` of
src/core/retry_handler.py.  `none` models the `ValueError` that
`float(match.group(1))` raises on a captured group such as "1.2.3". -/
def calculate_delay (cfg : RetryConfig) (attempt : Nat) (error : Option Str)
    (rand : ℚ) : Option ℚ :=
  match error with
  | some e =>
    match findSuggested e with
    | some g =>
      match pyFloatOfGroup g with
      | some v => some (max (v * (11 / 10)) (1 / 10))
      | none => none
    | none => some (backoffDelay cfg attempt rand)
  | none => some (backoffDelay cfg attempt rand)

/-- `NetworkRetryHandler.calculate_delay(attempt)` of
src/core/translator.py — the class the pipeline instantiates.  It takes no
error argument and never parses a suggested delay. -/
def translatorCalculateDelay (cfg : RetryConfig) (attempt : Nat) (rand : ℚ) : ℚ :=
  let delay := min (cfg.initialDelay * cfg.exponentialBase ^ attempt) cfg.maxDelay
  let delay' := if cfg.jitter then delay + rand else delay
  max (1 / 10) delay'

/-- Outcome of `execute_with_retry`: normal return, a re-raised exception,
or the `KeyboardInterrupt` cancellation signal (which, not being an
`Exception` subclass in Python 3, escapes the `except Exception` handler
and terminates the loop at once). -/
inductive RunOutcome (α : Type) where
  | ok (a : α)
  | raised (e : PyError)
  | interrupted
  deriving Repr, DecidableEq

/-- The attempt loop of `execute_with_retry` (both modules; the delay
computation is the one of src/core/retry_handler.py, which receives the
error).  `op n` is the behaviour of `func()` on attempt `n`; `cancel n` is
`stop_check()` at the head of attempt `n`; `rand n` is the jitter draw of
attempt `n`.  `remaining` counts the retries still allowed, so
`remaining = 0` is the source's `attempt == max_retries` test.  The result
carries the list of computed backoff delays that were waited. -/
def execAux (cfg : RetryConfig) (op : Nat → Except PyError α)
    (cancel : Nat → Bool) (rand : Nat → ℚ) :
    Nat → Nat → RunOutcome α × List ℚ
  | attempt, remaining =>
    if cancel attempt then (.interrupted, [])
    else
      match op attempt, remaining with
      | .ok a, _ => (.ok a, [])
      | .error e, 0 => (.raised e, [])
      | .error e, r + 1 =>
        if is_retryable_error cfg e then
          match calculate_delay cfg attempt (some e.msg) (rand attempt) with
          | some d =>
            let (res, ds) := execAux cfg op cancel rand (attempt + 1) r
            (res, d :: ds)
          | none =>
            -- float() raised ValueError inside the handler; it propagates
            (.raised ⟨false, "could not convert string to float".toList⟩, [])
        else (.raised e, [])

/-- `NetworkRetryHandler.execute_with_retry(func, on_retry, stop_check)`. -/
def execute_with_retry (cfg : RetryConfig) (op : Nat → Except PyError α)
    (cancel : Nat → Bool) (rand : Nat → ℚ) : RunOutcome α × List ℚ :=
  execAux cfg op cancel rand 0 cfg.maxRetries

/-! ## StateManager (src/core/state_manager.py)

`TranslationState`, `StateManager.update_progress`,
`StateManager.calculate_file_hash` and `StateManager.has_resumable_state`.
The filesystem is embedded as an oracle giving, per path, the readable
content (or `none` when opening/reading raises) and existence; the MD5
digest is an opaque parameter (its only property used by the code under
verification is that a digest of read bytes is a 32-character hex string,
hence nonempty).  ISO timestamps are embedded as an abstract `now`
argument.  Persistence (`save`) does not affect the in-memory state and is
not carried. -/

/-- `TranslationState` of src/core/state_manager.py. -/
structure TranslationState where
  source_file : Str
  source_file_hash : Str
  track_id : Nat
  source_lang : Str
  target_lang : Str
  model_name : Str
  total_lines : Nat
  completed_translations : List (Nat × Str)
  current_batch_index : Nat
  created_at : Nat
  updated_at : Nat
  prompt_tokens_used : Nat
  completion_tokens_used : Nat
  deriving Repr, DecidableEq

/-- `StateManager.update_progress(new_translations, batch_index,
prompt_tokens, completion_tokens)` on a loaded state: the set of already
present indices is computed once, then every new translation whose index
is not in that set is appended. -/
def update_progress (st : TranslationState) (newTranslations : List (Nat × Str))
    (batchIndex promptTokens completionTokens now : Nat) : TranslationState :=
  let existing := st.completed_translations.map (fun t => t.1)
  { st with
    completed_translations :=
      st.completed_translations
        ++ newTranslations.filter (fun t => !existing.contains t.1)
    current_batch_index := batchIndex
    updated_at := now
    prompt_tokens_used := st.prompt_tokens_used + promptTokens
    completion_tokens_used := st.completion_tokens_used + completionTokens }

/-- The filesystem as seen by StateManager: `readBytes` is the content
`open(path, 'rb').read()` would return, or `none` when opening or reading
raises; `pathExists` is `Path(path).exists()`. -/
structure FileSys where
  readBytes : Str → Option (List Nat)
  pathExists : Str → Bool

/-- `StateManager.calculate_file_hash(file_path, size)`: the digest of the
first `size` bytes, or the empty string when any exception occurs. -/
def calculate_file_hash (digest : List Nat → Str) (fs : FileSys)
    (filePath : Str) (size : Nat) : Str :=
  match fs.readBytes filePath with
  | some data => digest (data.take size)
  | none => []

/-- `StateManager.has_resumable_state(source_file)`.  `loaded` is what
`self.load()` returned (the parsed state file, or `none` when the file is
missing or unreadable).  Mirrors the source's early returns: no state, no
completed translations, stored path mismatch, fingerprint mismatch (only
checked when the freshly computed hash is nonempty), stored file no longer
on disk. -/
def has_resumable_state (digest : List Nat → Str) (fs : FileSys)
    (loaded : Option TranslationState) (sourceFile : Option Str) : Bool :=
  match loaded with
  | none => false
  | some st =>
    if st.completed_translations.length = 0 then false
    else
      let pathOk :=
        match sourceFile with
        | some f =>
          if st.source_file ≠ f then false
          else
            let currentHash := calculate_file_hash digest fs f (1024 * 1024)
            if currentHash ≠ [] ∧ st.source_file_hash ≠ currentHash then false
            else true
        | none => true
      if pathOk then (if fs.pathExists st.source_file then true else false)
      else false

/-! ## FallbackRouter

Modelled from the spec: no fallback router exists anywhere under src/ —
the only trace of it in the sources is the unconsumed `fallback_model`
configuration key (src/core/config_manager.py, line 30), and policy
violations reaching the real pipeline are simply non-retryable errors that
fail the batch.  Spec section 4.5 describes the intended component:
triggered only on a policy-violation signal for an entire batch, never
sent through the retry engine; the model is chosen as (1) the explicitly
configured fallback model, else (2) the first available model excluding
the violating one and restrictive-family models, preferring known
general-purpose vendors, else (3) the first available model excluding only
the violating one; the identical prepared prompt is resubmitted exactly
once; on success the batch is succeeded-with-fallback, on failure or no
candidate the batch is failed and its lines fall back to their
untranslated originals.  Restrictive-family and vendor-preference name
matching are abstract predicates (spec section 9 leaves them as
configurable exclusion rules). -/

/-- Modelled from the spec: the per-batch outcome signal of the primary
model, distinguishing a policy violation covering the whole batch from any
other failure. -/
inductive PrimaryOutcome where
  | okText (raw : Str)
  | policyViolation (msg : Str)
  | otherFailure (msg : Str)
  deriving Repr, DecidableEq

/-- Modelled from the spec: the per-batch status after fallback routing. -/
inductive BatchStatus where
  | succeeded
  | succeededWithFallback
  | failed
  deriving Repr, DecidableEq

/-- Modelled from the spec: fallback model selection order — the
configured fallback model; else the first available model excluding the
violating model and restrictive-family models, preferring matching
vendors; else the first available model excluding only the violating
one. -/
def chooseFallbackModel (configured : Option Str) (available : List Str)
    (violating : Str) (restrictive preferredVendor : Str → Bool) : Option Str :=
  match configured with
  | some m => some m
  | none =>
    let cands := available.filter (fun m => m ≠ violating && !restrictive m)
    match cands.find? preferredVendor with
    | some m => some m
    | none =>
      match cands with
      | m :: _ => some m
      | [] =>
        match available.filter (fun m => m ≠ violating) with
        | m :: _ => some m
        | [] => none

/-- Modelled from the spec: handle one batch's primary outcome.
`fallbackCall m p` is the single direct provider call (never wrapped in
the retry engine) resubmitting prompt `p` to model `m`.  Returns the batch
status, the merged lines (parsed translations, or the untranslated
originals on failure), and the trace of fallback calls made. -/
def handleBatchOutcome (primary : PrimaryOutcome) (prompt : Str)
    (batch : List SubtitleLine) (configured : Option Str) (available : List Str)
    (violating : Str) (restrictive preferredVendor : Str → Bool)
    (fallbackCall : Str → Str → Option Str) :
    BatchStatus × List (Nat × Str) × List (Str × Str) :=
  let originals := batch.map (fun l => (l.index, l.text))
  match primary with
  | .okText raw => (.succeeded, parse_response raw (batchIdxList batch), [])
  | .otherFailure _ => (.failed, originals, [])
  | .policyViolation _ =>
    match chooseFallbackModel configured available violating restrictive preferredVendor with
    | none => (.failed, originals, [])
    | some m =>
      match fallbackCall m prompt with
      | some raw => (.succeededWithFallback, parse_response raw (batchIdxList batch), [(m, prompt)])
      | none => (.failed, originals, [(m, prompt)])

/-! ## Helper lemmas -/

theorem headMatches_iff_isPrefix : ∀ s p : Str, headMatches s p = true ↔ p <+: s := by
  intro s p
  induction p generalizing s with
  | nil => simp [headMatches]
  | cons ph pt ih =>
    cases s with
    | nil => simp [headMatches]
    | cons ch ct =>
      simp only [headMatches, Bool.and_eq_true, decide_eq_true_eq, ih]
      constructor
      · rintro ⟨rfl, t, ht⟩
        exact ⟨t, by simp [ht]⟩
      · intro h
        rcases h with ⟨t, ht⟩
        injection ht with h1 h2
        exact ⟨h1.symm, h2 ▸ ⟨t, rfl⟩⟩

theorem containsSub_iff_isInfix : ∀ hay pat : Str, containsSub hay pat = true ↔ pat <:+: hay := by
  intro hay pat
  induction hay with
  | nil => simp [containsSub, List.isEmpty_iff]
  | cons c rest ih =>
    simp only [containsSub, Bool.or_eq_true, headMatches_iff_isPrefix, ih]
    exact (@List.infix_cons_iff Char pat c rest).symm

theorem parse_response_idx_mem (raw : Str) (expected : List Nat) :
    ∀ p ∈ parse_response raw expected, p.1 ∈ expected := by
  intro p hp
  have h := List.mem_filter.mp hp
  simpa using h.2

/-! ## Claim C1 -/

/-- Claim C1 (code-bug evidence): the identity-translation round-trip law
fails on the code.  On the non-skip line "a{\i1}{\b1}b" (style "Default"),
whose two adjacent inline tags both sit at offset 1 of the clean text,
`prepare_for_translation` inserts their placeholders at the same offset in
reverse-sorted order, so `restore_styles` returns the line with the two
tags transposed: "a{\b1}{\i1}b", not the original. -/
theorem c1_roundtrip_fails_on_adjacent_tags :
    should_skip_translation "Default".toList "a\x7b\\i1\x7d\x7b\\b1\x7db".toList = false
    ∧ styleRoundTrip "a\x7b\\i1\x7d\x7b\\b1\x7db".toList "Default".toList
        = "a\x7b\\b1\x7d\x7b\\i1\x7db".toList
    ∧ styleRoundTrip "a\x7b\\i1\x7d\x7b\\b1\x7db".toList "Default".toList
        ≠ "a\x7b\\i1\x7d\x7b\\b1\x7db".toList := by
  decide

/-! ## Claim C9 -/

/-- Claim C9 counterexample: a segment does not run "until the next [M]
marker" — it runs until the next marker at a line start.  On the raw text
"[1] a [2] b" with expected indices 1 and 2, the code returns the single
pair (1, "a [2] b"): the inner marker, not preceded by a newline, is
swallowed into the first segment, and no pair for index 2 is produced. -/
theorem c9_counterexample :
    parse_response "[1] a [2] b".toList [1, 2] = [(1, "a [2] b".toList)]
    ∧ parse_response "[1] a [2] b".toList [1, 2]
        ≠ [(1, "a".toList), (2, "b".toList)] := by
  decide

/-- Claim C9 (amended): `parse` extracts every bracket-marked segment whose
text runs until the next newline-preceded marker or the end of input,
trims whitespace, drops indices outside the expected set, and preserves
first-seen order; on the scenario response the code yields (2, "Halo") and
(1, "Apa kabar") in first-seen order — (1, "Apa kabar"), (2, "Halo") after
the orchestrator's index sort — with the hallucinated index 5 dropped. -/
theorem c9_parse_scenario :
    parse_response "[2] Halo\n[1] Apa kabar\n[5] garbage".toList [1, 2]
        = [(2, "Halo".toList), (1, "Apa kabar".toList)]
    ∧ sortByIdx (parse_response "[2] Halo\n[1] Apa kabar\n[5] garbage".toList [1, 2])
        = [(1, "Apa kabar".toList), (2, "Halo".toList)]
    ∧ (5 : Nat) ∉ (parse_response "[2] Halo\n[1] Apa kabar\n[5] garbage".toList [1, 2]).map
        (fun p => p.1)
    ∧ (∀ raw expected, ∀ p ∈ parse_response raw expected, p.1 ∈ expected) := by
  refine ⟨by decide, by decide, by decide, ?_⟩
  intro raw expected
  exact parse_response_idx_mem raw expected

/-- Claim C9 witness: the universally quantified conjunct of the amended
theorem applied at a concrete parse. -/
theorem c9_parse_scenario_witness :
    ((2, "Halo".toList) ∈ parse_response "[2] Halo".toList [2]) ∧ (2 : Nat) ∈ [2] :=
  ⟨by decide, c9_parse_scenario.2.2.2 "[2] Halo".toList [2] (2, "Halo".toList) (by decide)⟩

/-! ## Claim C5 -/

theorem execAux_delays_length_le (cfg : RetryConfig) (op : Nat → Except PyError α)
    (cancel : Nat → Bool) (rand : Nat → ℚ) :
    ∀ remaining attempt, (execAux cfg op cancel rand attempt remaining).2.length ≤ remaining := by
  intro remaining
  induction remaining with
  | zero =>
    intro attempt
    rw [execAux.eq_def]
    rcases hc : cancel attempt
    · rcases ho : op attempt <;> simp [hc, ho]
    · simp [hc]
  | succ r ih =>
    intro attempt
    rw [execAux.eq_def]
    rcases hc : cancel attempt
    · rcases ho : op attempt with e | a
      · rcases hr : is_retryable_error cfg e
        · simp [hc, ho, hr]
        · rcases hd : calculate_delay cfg attempt (some e.msg) (rand attempt) with _ | d
          · simp [hc, ho, hr, hd]
          · simpa [hc, ho, hr, hd] using ih (attempt + 1)
      · simp [hc, ho]
    · simp [hc]

/-- Claim C5: `execute_with_retry` makes at most `max_retries + 1` attempts
(so at most `max_retries` waited delays); a true `stop_check` at the head
of any attempt terminates the loop at once with the cancellation signal
(`KeyboardInterrupt` is not an `Exception` and escapes the handler) and no
further delay; an exception that is not retryable, or that occurs on the
last allowed attempt, is re-raised immediately with no further delay; and
in the scenario — a transient 503 failing attempts 0 and 1, success on
attempt 2, initial delay 1.0, base 2.0, jitter off — the waited delays are
exactly 1.0 s and 2.0 s. -/
theorem c5_execute_with_retry_semantics :
    (∀ (α : Type) (cfg : RetryConfig) (op : Nat → Except PyError α) cancel rand,
      (execute_with_retry cfg op cancel rand).2.length ≤ cfg.maxRetries)
    ∧ (∀ (α : Type) (cfg : RetryConfig) (op : Nat → Except PyError α) cancel rand
        attempt remaining, cancel attempt = true →
        execAux cfg op cancel rand attempt remaining = (.interrupted, []))
    ∧ (∀ (α : Type) (cfg : RetryConfig) (op : Nat → Except PyError α) cancel rand
        attempt remaining e, cancel attempt = false → op attempt = .error e →
        is_retryable_error cfg e = false →
        execAux cfg op cancel rand attempt remaining = (.raised e, []))
    ∧ (∀ (α : Type) (cfg : RetryConfig) (op : Nat → Except PyError α) cancel rand
        attempt e, cancel attempt = false → op attempt = .error e →
        execAux cfg op cancel rand attempt 0 = (.raised e, []))
    ∧ execute_with_retry ⟨5, 1, 60, 2, false, true, true⟩
        (fun n => if n < 2 then .error ⟨false, "503 Service Unavailable".toList⟩
                  else .ok "translated".toList)
        (fun _ => false) (fun _ => 0)
      = (.ok "translated".toList, [1, 2]) := by
  refine ⟨?_, ?_, ?_, ?_, ?_⟩
  · intro α cfg op cancel rand
    exact execAux_delays_length_le cfg op cancel rand cfg.maxRetries 0
  · intro α cfg op cancel rand attempt remaining hc
    rw [execAux.eq_def]
    simp [hc]
  · intro α cfg op cancel rand attempt remaining e hc ho hr
    cases remaining <;> (rw [execAux.eq_def]; simp [hc, ho, hr])
  · intro α cfg op cancel rand attempt e hc ho
    rw [execAux.eq_def]
    simp [hc, ho]
  · with_unfolding_all decide

/-- Claim C5 witness: the quantified conjuncts of the theorem applied at
concrete inputs (a cancellation observed at the loop head of attempt 0; a
non-retryable authorization failure re-raised at attempt 0 with five
retries still allowed; a retryable failure re-raised on the last allowed
attempt). -/
theorem c5_execute_with_retry_semantics_witness :
    (execute_with_retry defaultRetryConfig
        (fun _ => (Except.ok "x".toList : Except PyError Str)) (fun _ => true)
        (fun _ => 0)).2.length ≤ defaultRetryConfig.maxRetries
    ∧ execAux defaultRetryConfig (fun _ => (Except.ok "x".toList : Except PyError Str))
        (fun _ => true) (fun _ => 0) 0 5 = (.interrupted, [])
    ∧ execAux defaultRetryConfig
        (fun _ => (Except.error ⟨false, "401 invalid api key".toList⟩ : Except PyError Str))
        (fun _ => false) (fun _ => 0) 0 5
      = (.raised ⟨false, "401 invalid api key".toList⟩, [])
    ∧ execAux defaultRetryConfig
        (fun _ => (Except.error ⟨false, "503 Service Unavailable".toList⟩ : Except PyError Str))
        (fun _ => false) (fun _ => 0) 3 0
      = (.raised ⟨false, "503 Service Unavailable".toList⟩, []) :=
  ⟨c5_execute_with_retry_semantics.1 Str defaultRetryConfig _ _ _,
   c5_execute_with_retry_semantics.2.1 Str defaultRetryConfig _ _ _ 0 5 rfl,
   c5_execute_with_retry_semantics.2.2.1 Str defaultRetryConfig _ _ _ 0 5 _ rfl rfl
     (by decide),
   c5_execute_with_retry_semantics.2.2.2.1 Str defaultRetryConfig _ _ _ 3 _ rfl rfl⟩

/-! ## Claim C6 -/

/-- Claim C6 counterexample: the retry handler instance the translation
pipeline actually uses (the `NetworkRetryHandler` class defined inside
src/core/translator.py, instantiated at `Translator.__init__`) never
parses provider-suggested delays.  For the error "Rate limit reached.
Please try again in 5s." the parsing handler of src/core/retry_handler.py
computes 5 × 1.1 = 5.5 s, while the pipeline's handler computes the plain
attempt-0 backoff of 1.0 s (jitter sample 0). -/
theorem c6_counterexample :
    calculate_delay defaultRetryConfig 0
        (some "Rate limit reached. Please try again in 5s.".toList) 0 = some (11 / 2)
    ∧ translatorCalculateDelay defaultRetryConfig 0 0 = 1
    ∧ (1 : ℚ) ≠ 11 / 2 := by
  with_unfolding_all decide

/-- Claim C6 (amended): whenever the error message matches the
suggested-delay pattern and its captured group parses as a float, the
delay computed by `NetworkRetryHandler.calculate_delay` of
src/core/retry_handler.py equals the parsed seconds times 1.1 floored at
0.1 s, taking priority over the backoff formula — but the translation
pipeline's own handler (src/core/translator.py) ignores error messages
entirely: with the pipeline's default configuration at attempt 0 its delay
is at most 1.25 s for every admissible jitter draw, so it can never
produce the suggested 5.5 s. -/
theorem c6_suggested_delay_priority :
    (∀ (cfg : RetryConfig) (attempt : Nat) (e g : Str) (v rand : ℚ),
      findSuggested e = some g → pyFloatOfGroup g = some v →
      calculate_delay cfg attempt (some e) rand = some (max (v * (11 / 10)) (1 / 10)))
    ∧ (∀ rand : ℚ, -(1 / 4) ≤ rand → rand ≤ 1 / 4 →
        translatorCalculateDelay defaultRetryConfig 0 rand ≤ 5 / 4)
    ∧ (5 / 4 : ℚ) < 11 / 2 := by
  refine ⟨?_, ?_, by norm_num⟩
  · intro cfg attempt e g v rand hf hp
    simp [calculate_delay, hf, hp]
  · intro rand h1 h2
    have he : translatorCalculateDelay defaultRetryConfig 0 rand = max (1 / 10) (1 + rand) := by
      rw [translatorCalculateDelay]
      norm_num [defaultRetryConfig]
    rw [he]
    apply max_le (by norm_num)
    linarith

/-- Claim C6 witness: the amended theorem applied at the concrete error
"Rate limit reached. Please try again in 5s." and the concrete jitter
draw 1/4. -/
theorem c6_suggested_delay_priority_witness :
    calculate_delay defaultRetryConfig 3
        (some "Rate limit reached. Please try again in 5s.".toList) 0
      = some (max ((5 : ℚ) * (11 / 10)) (1 / 10))
    ∧ translatorCalculateDelay defaultRetryConfig 0 (1 / 4) ≤ 5 / 4 :=
  ⟨by
    have h := c6_suggested_delay_priority.1 defaultRetryConfig 3
      "Rate limit reached. Please try again in 5s.".toList "5".toList 5 0
      (by decide) (by with_unfolding_all decide)
    simpa using h,
   c6_suggested_delay_priority.2.1 (1 / 4) (by norm_num) (by norm_num)⟩

/-! ## Claim C7 -/

/-- Claim C7: with jitter disabled and no provider-suggested delay,
`calculate_delay` equals `min(initial_delay * base ** attempt, max_delay)`
floored at 0.1 s; the backoff is monotone in the attempt number whenever
the exponential base is at least 1 and the initial delay nonnegative, and
it never exceeds `max_delay` whenever `max_delay` is at least the 0.1 s
floor (the default configuration satisfies all three conditions). -/
theorem c7_backoff_formula_and_monotonicity :
    ∀ cfg : RetryConfig, cfg.jitter = false →
      (∀ (attempt : Nat) (rand : ℚ),
        calculate_delay cfg attempt none rand
          = some (max (1 / 10) (min (cfg.initialDelay * cfg.exponentialBase ^ attempt) cfg.maxDelay)))
      ∧ (1 ≤ cfg.exponentialBase → 0 ≤ cfg.initialDelay →
          ∀ (attempt : Nat) (rand rand' : ℚ),
            backoffDelay cfg attempt rand ≤ backoffDelay cfg (attempt + 1) rand')
      ∧ (1 / 10 ≤ cfg.maxDelay →
          ∀ (attempt : Nat) (rand : ℚ), backoffDelay cfg attempt rand ≤ cfg.maxDelay) := by
  intro cfg hj
  refine ⟨?_, ?_, ?_⟩
  · intro attempt rand
    rw [calculate_delay, backoffDelay, hj]
    simp
  · intro hb hi attempt rand rand'
    rw [backoffDelay, backoffDelay, hj]
    simp only [if_neg Bool.false_ne_true]
    apply max_le_max le_rfl
    apply min_le_min _ le_rfl
    exact mul_le_mul_of_nonneg_left (pow_le_pow_right₀ hb (Nat.le_succ attempt)) hi
  · intro hm attempt rand
    rw [backoffDelay, hj]
    simp only [if_neg Bool.false_ne_true]
    exact max_le hm (min_le_right _ _)

/-- Claim C7 witness: the theorem applied to the default configuration
with jitter disabled, at attempt 3. -/
theorem c7_backoff_formula_and_monotonicity_witness :
    calculate_delay ⟨5, 1, 60, 2, false, true, true⟩ 3 none 0
      = some (max (1 / 10) (min ((1 : ℚ) * 2 ^ (3 : Nat)) 60))
    ∧ backoffDelay ⟨5, 1, 60, 2, false, true, true⟩ 3 0
        ≤ backoffDelay ⟨5, 1, 60, 2, false, true, true⟩ 4 0
    ∧ backoffDelay ⟨5, 1, 60, 2, false, true, true⟩ 3 0 ≤ 60 :=
  ⟨(c7_backoff_formula_and_monotonicity ⟨5, 1, 60, 2, false, true, true⟩ rfl).1 3 0,
   (c7_backoff_formula_and_monotonicity ⟨5, 1, 60, 2, false, true, true⟩ rfl).2.1
     (by norm_num) (by norm_num) 3 0 0,
   (c7_backoff_formula_and_monotonicity ⟨5, 1, 60, 2, false, true, true⟩ rfl).2.2
     (by norm_num) 3 0⟩

/-! ## Claim C8 -/

/-- Claim C8 counterexample: the set of already present indices is
computed once, before the merge loop, so a `new_translations` list that
itself repeats an index gets both entries appended: starting from an empty
state, updating with [(1, "a"), (1, "b")] leaves index 1 twice in
`completed_translations`. -/
theorem c8_counterexample :
    (update_progress
        ⟨"f.mkv".toList, "h".toList, 0, "en".toList, "id".toList, "m".toList,
          2, [], 0, 0, 0, 0, 0⟩
        [(1, "a".toList), (1, "b".toList)] 0 0 0 1).completed_translations
      = [(1, "a".toList), (1, "b".toList)]
    ∧ ¬ ((update_progress
        ⟨"f.mkv".toList, "h".toList, 0, "en".toList, "id".toList, "m".toList,
          2, [], 0, 0, 0, 0, 0⟩
        [(1, "a".toList), (1, "b".toList)] 0 0 0 1).completed_translations.map
          (fun t => t.1)).Nodup := by
  decide

/-- Claim C8 (amended): applying `update_progress` twice with the same
`new_translations` always yields the same `completed_translations` as
applying it once (idempotent against replay); and the no-duplicate
invariant is preserved provided the state's completed indices and the
incoming `new_translations` indices are each duplicate-free — a
`new_translations` list that repeats an index internally breaks it. -/
theorem c8_update_progress_idempotent :
    ∀ (st : TranslationState) (newT : List (Nat × Str))
      (bi p c now bi' p' c' now' : Nat),
      (update_progress (update_progress st newT bi p c now) newT bi' p' c' now').completed_translations
        = (update_progress st newT bi p c now).completed_translations
      ∧ (((st.completed_translations.map (fun t => t.1)).Nodup
            ∧ (newT.map (fun t => t.1)).Nodup) →
          ((update_progress st newT bi p c now).completed_translations.map
            (fun t => t.1)).Nodup) := by
  intro st newT bi p c now bi' p' c' now'
  constructor
  · show (update_progress st newT bi p c now).completed_translations
        ++ newT.filter _ = _
    have hall : ∀ t ∈ newT,
        t.1 ∈ (update_progress st newT bi p c now).completed_translations.map
          (fun t => t.1) := by
      intro t ht
      show t.1 ∈ (st.completed_translations ++ newT.filter _).map _
      rw [List.map_append, List.mem_append]
      by_cases hmem : t.1 ∈ st.completed_translations.map (fun t => t.1)
      · exact Or.inl hmem
      · refine Or.inr (List.mem_map.mpr ⟨t, List.mem_filter.mpr ⟨ht, ?_⟩, rfl⟩)
        simpa using hmem
    have hnil : newT.filter
        (fun t => !((update_progress st newT bi p c now).completed_translations.map
          (fun t => t.1)).contains t.1) = [] := by
      apply List.filter_eq_nil_iff.mpr
      intro t ht
      simpa using hall t ht
    rw [hnil, List.append_nil]
  · rintro ⟨h1, h2⟩
    show ((st.completed_translations ++ newT.filter _).map _).Nodup
    rw [List.map_append, List.nodup_append]
    refine ⟨h1, ?_, ?_⟩
    · exact h2.sublist ((List.filter_sublist newT).map _)
    · intro i hi hcontra
      rcases List.mem_map.mp hcontra with ⟨t, htf, rfl⟩
      have hpred := (List.mem_filter.mp htf).2
      rw [Bool.not_eq_true'] at hpred
      have hc : (List.map (fun t => t.1) st.completed_translations).contains t.1 = true :=
        List.elem_eq_true_of_mem hi
      rw [hc] at hpred
      exact absurd hpred (by simp)

/-- Claim C8 witness: the theorem applied to a concrete state and a
concrete duplicate-free update. -/
theorem c8_update_progress_idempotent_witness :
    (update_progress
        (update_progress
          ⟨"f.mkv".toList, "h".toList, 0, "en".toList, "id".toList, "m".toList,
            3, [(1, "x".toList)], 0, 0, 0, 0, 0⟩
          [(1, "y".toList), (2, "z".toList)] 0 0 0 1)
        [(1, "y".toList), (2, "z".toList)] 0 0 0 2).completed_translations
      = (update_progress
          ⟨"f.mkv".toList, "h".toList, 0, "en".toList, "id".toList, "m".toList,
            3, [(1, "x".toList)], 0, 0, 0, 0, 0⟩
          [(1, "y".toList), (2, "z".toList)] 0 0 0 1).completed_translations
    ∧ ((update_progress
          ⟨"f.mkv".toList, "h".toList, 0, "en".toList, "id".toList, "m".toList,
            3, [(1, "x".toList)], 0, 0, 0, 0, 0⟩
          [(1, "y".toList), (2, "z".toList)] 0 0 0 1).completed_translations.map
            (fun t => t.1)).Nodup :=
  ⟨(c8_update_progress_idempotent _ _ 0 0 0 1 0 0 0 2).1,
   (c8_update_progress_idempotent _ [(1, "y".toList), (2, "z".toList)] 0 0 0 1 0 0 0 2).2
     (by decide)⟩

/-! ## Claim C10 -/

/-- Claim C10: `calculate_file_hash` returns the empty string whenever
opening or reading the source file raises, and `has_resumable_state` skips
the fingerprint comparison whenever the freshly computed hash is empty —
so a saved state whose stored path matches a source file that exists on
disk but is currently unreadable is still reported resumable. -/
theorem c10_unreadable_source_still_resumable :
    ∀ (digest : List Nat → Str) (fs : FileSys) (st : TranslationState)
      (f : Str) (size : Nat),
      fs.readBytes f = none →
      calculate_file_hash digest fs f size = []
      ∧ (fs.pathExists st.source_file = true → st.source_file = f →
          st.completed_translations ≠ [] →
          has_resumable_state digest fs (some st) (some f) = true) := by
  intro digest fs st f size hread
  constructor
  · rw [calculate_file_hash, hread]
  · intro hex hpath hcomp
    rw [has_resumable_state]
    have hlen : ¬ st.completed_translations.length = 0 := by
      simpa [List.length_eq_zero] using hcomp
    rw [if_neg hlen]
    have hhash : calculate_file_hash digest fs f (1024 * 1024) = [] := by
      rw [calculate_file_hash, hread]
    rw [hpath] at hex
    simp [hpath, hhash, hex]

/-- Claim C10 witness: the theorem applied to a concrete filesystem on
which the stored source file exists but reading it raises. -/
theorem c10_unreadable_source_still_resumable_witness :
    calculate_file_hash (fun _ => "d".toList)
        ⟨fun _ => none, fun _ => true⟩ "f.mkv".toList 1024 = []
    ∧ has_resumable_state (fun _ => "d".toList) ⟨fun _ => none, fun _ => true⟩
        (some ⟨"f.mkv".toList, "h".toList, 0, "en".toList, "id".toList,
          "m".toList, 3, [(1, "x".toList)], 0, 0, 0, 0, 0⟩)
        (some "f.mkv".toList) = true :=
  ⟨(c10_unreadable_source_still_resumable (fun _ => "d".toList)
      ⟨fun _ => none, fun _ => true⟩
      ⟨"f.mkv".toList, "h".toList, 0, "en".toList, "id".toList, "m".toList, 3,
        [(1, "x".toList)], 0, 0, 0, 0, 0⟩ "f.mkv".toList 1024 rfl).1,
   (c10_unreadable_source_still_resumable (fun _ => "d".toList)
      ⟨fun _ => none, fun _ => true⟩
      ⟨"f.mkv".toList, "h".toList, 0, "en".toList, "id".toList, "m".toList, 3,
        [(1, "x".toList)], 0, 0, 0, 0, 0⟩ "f.mkv".toList 1024 rfl).2 rfl rfl
     (by decide)⟩

/-! ## Claim C3 -/

/-- Claim C3 (spec-modelled): re-routing happens only on a
policy-violation signal for the whole batch — a successful batch and any
non-policy failure make no fallback call at all, and a non-policy failure
is simply marked failed with the untranslated originals substituted; on a
policy violation the identical prepared prompt is resubmitted to the
chosen fallback model exactly once, with no retry-engine loop around it;
when no fallback model is available, or when the single fallback call
fails, the batch is marked failed and its lines fall back to their
untranslated originals.  In the real pipeline's classifier a
policy-violation message is not retryable, so such a batch would never
re-enter the retry loop. -/
theorem c3_fallback_router_policy_only :
    (∀ (prompt : Str) (batch : List SubtitleLine) (configured : Option Str)
       (available : List Str) (violating : Str) (restrictive pv : Str → Bool)
       (fc : Str → Str → Option Str) (raw : Str),
       (handleBatchOutcome (.okText raw) prompt batch configured available
         violating restrictive pv fc).2.2 = [])
    ∧ (∀ prompt batch configured available violating restrictive pv fc msg,
       handleBatchOutcome (.otherFailure msg) prompt batch configured available
           violating restrictive pv fc
         = (.failed, batch.map (fun l => (l.index, l.text)), []))
    ∧ (∀ prompt batch configured available violating restrictive pv fc msg m,
        chooseFallbackModel configured available violating restrictive pv = some m →
        (handleBatchOutcome (.policyViolation msg) prompt batch configured
          available violating restrictive pv fc).2.2 = [(m, prompt)])
    ∧ (∀ prompt batch configured available violating restrictive pv fc msg,
        chooseFallbackModel configured available violating restrictive pv = none →
        handleBatchOutcome (.policyViolation msg) prompt batch configured
            available violating restrictive pv fc
          = (.failed, batch.map (fun l => (l.index, l.text)), []))
    ∧ (∀ prompt batch configured available violating restrictive pv fc msg m,
        chooseFallbackModel configured available violating restrictive pv = some m →
        fc m prompt = none →
        handleBatchOutcome (.policyViolation msg) prompt batch configured
            available violating restrictive pv fc
          = (.failed, batch.map (fun l => (l.index, l.text)), [(m, prompt)]))
    ∧ is_retryable_error defaultRetryConfig
        ⟨false, "content policy violation".toList⟩ = false := by
  refine ⟨?_, ?_, ?_, ?_, ?_, by decide⟩
  · intro prompt batch configured available violating restrictive pv fc raw
    rfl
  · intro prompt batch configured available violating restrictive pv fc msg
    rfl
  · intro prompt batch configured available violating restrictive pv fc msg m hm
    cases hfc : fc m prompt <;> simp [handleBatchOutcome, hm, hfc]
  · intro prompt batch configured available violating restrictive pv fc msg hm
    simp [handleBatchOutcome, hm]
  · intro prompt batch configured available violating restrictive pv fc msg m hm hfc
    simp [handleBatchOutcome, hm, hfc]

/-- Claim C3 witness: the theorem applied at a concrete batch — a
configured fallback model, a policy-violating primary outcome, and a
fallback call that fails, leaving the batch failed with its originals. -/
theorem c3_fallback_router_policy_only_witness :
    handleBatchOutcome (.policyViolation "content policy violation".toList)
        "PROMPT".toList [⟨1, "a".toList, "Default".toList⟩]
        (some "gpt-3.5".toList) ["m1".toList, "m2".toList] "m1".toList
        (fun _ => false) (fun _ => false) (fun _ _ => none)
      = (.failed, [(1, "a".toList)], [("gpt-3.5".toList, "PROMPT".toList)]) :=
  c3_fallback_router_policy_only.2.2.2.2.1 "PROMPT".toList
    [⟨1, "a".toList, "Default".toList⟩] (some "gpt-3.5".toList)
    ["m1".toList, "m2".toList] "m1".toList (fun _ => false) (fun _ => false)
    (fun _ _ => none) "content policy violation".toList "gpt-3.5".toList rfl rfl

/-! ## Claim C4 -/

theorem intercalate_cons_of_ne_nil (sep a : Str) (L : List Str) (h : L ≠ []) :
    List.intercalate sep (a :: L) = a ++ sep ++ List.intercalate sep L := by
  cases L with
  | nil => exact absurd rfl h
  | cons b t =>
    simp [List.intercalate, List.intersperse, List.append_assoc]

theorem mem_infix_intercalate (sep : Str) :
    ∀ (L : List Str) (x : Str), x ∈ L → x <:+: List.intercalate sep L := by
  intro L
  induction L with
  | nil => intro x hx; cases hx
  | cons a t ih =>
    intro x hx
    rcases List.mem_cons.mp hx with rfl | hx
    · cases t with
      | nil => simp [List.intercalate, List.intersperse]
      | cons b u =>
        rw [intercalate_cons_of_ne_nil sep x (b :: u) (by simp)]
        exact ((x.prefix_append sep).trans (List.prefix_append _ _)).isInfix
    · have ht : t ≠ [] := by rintro rfl; cases hx
      rw [intercalate_cons_of_ne_nil sep a t ht]
      exact (ih x hx).trans (List.suffix_append _ _).isInfix

/-- Claim C4 counterexample: the orchestrator never invokes the style
codec.  A line with the non-dialogue style "sign" and positional markup —
which `should_skip_translation` classifies as skip — is placed verbatim
into the lines block sent to the model; and a parsed translation carrying
a placeholder token is merged verbatim by `translate_all`, although
`restore_styles` applied with the line's prepare metadata would have
changed it. -/
theorem c4_counterexample :
    should_skip_translation "sign".toList "\x7b\\pos(1,2)\x7dSTOP".toList = true
    ∧ containsSub (linesTextOf [⟨7, "\x7b\\pos(1,2)\x7dSTOP".toList, "sign".toList⟩])
        "\x7b\\pos(1,2)\x7dSTOP".toList = true
    ∧ translate_all (fun _ => some "[1] Hello <<STYLE_0>>".toList)
        [⟨1, "a\x7b\\i1\x7db".toList, "Default".toList⟩] 25
      = [(1, "Hello <<STYLE_0>>".toList)]
    ∧ restore_styles "Hello <<STYLE_0>>".toList
        (prepare_for_translation "a\x7b\\i1\x7db".toList "Default".toList).2
      ≠ "Hello <<STYLE_0>>".toList := by
  decide

/-- Claim C4 (amended): the orchestrator builds the prompt directly from
each line's raw text — every line of a batch, including lines classified
as skip by the (never invoked) style codec, appears verbatim as "[index]
text" inside the prompt sent to the model — and parsed translations are
merged verbatim with no restoration step. -/
theorem c4_raw_text_sent_to_model :
    ∀ (lines : List SubtitleLine) (sourceLang targetLang context : Str)
      (l : SubtitleLine), l ∈ lines →
      containsSub (buildPrompt sourceLang targetLang context (linesTextOf lines))
        (lineEntry l) = true := by
  intro lines sourceLang targetLang context l hl
  rw [containsSub_iff_isInfix]
  have h1 : lineEntry l <:+: linesTextOf lines :=
    mem_infix_intercalate ['\n'] (lines.map lineEntry) (lineEntry l)
      (List.mem_map.mpr ⟨l, hl, rfl⟩)
  refine h1.trans ?_
  rw [buildPrompt]
  exact ⟨PROMPT_PART_1 ++ sourceLang ++ PROMPT_PART_2 ++ targetLang ++ PROMPT_PART_3
      ++ context ++ PROMPT_PART_4, PROMPT_PART_5, by simp [List.append_assoc]⟩

/-- Claim C4 witness: the amended theorem applied to a concrete
skip-classified sign line inside a two-line batch. -/
theorem c4_raw_text_sent_to_model_witness :
    containsSub
        (buildPrompt "English".toList "Indonesian".toList "(No previous context)".toList
          (linesTextOf [⟨1, "hi".toList, "Default".toList⟩,
            ⟨2, "\x7b\\pos(1,2)\x7dSTOP".toList, "sign".toList⟩]))
        (lineEntry ⟨2, "\x7b\\pos(1,2)\x7dSTOP".toList, "sign".toList⟩) = true :=
  c4_raw_text_sent_to_model
    [⟨1, "hi".toList, "Default".toList⟩, ⟨2, "\x7b\\pos(1,2)\x7dSTOP".toList, "sign".toList⟩]
    "English".toList "Indonesian".toList "(No previous context)".toList
    ⟨2, "\x7b\\pos(1,2)\x7dSTOP".toList, "sign".toList⟩ (by decide)

/-! ## Claim C2 -/

theorem mergeParsed_spec (S : List Nat) :
    ∀ (parsed : List (Nat × Str)) (acc : JobAcc),
      (∀ p ∈ parsed, p.1 ∈ S) →
      (acc.all.map (fun q => q.1)).Nodup →
      (∀ i ∈ acc.completed, i ∈ acc.all.map (fun q => q.1)) →
      (∀ i ∈ S, i ∈ acc.all.map (fun q => q.1) → i ∈ acc.completed) →
      ((mergeParsed parsed acc).all.map (fun q => q.1)).Nodup
      ∧ (∀ i ∈ (mergeParsed parsed acc).completed,
          i ∈ (mergeParsed parsed acc).all.map (fun q => q.1))
      ∧ (∀ i ∈ S, i ∈ (mergeParsed parsed acc).all.map (fun q => q.1) →
          i ∈ (mergeParsed parsed acc).completed)
      ∧ (∀ i ∈ (mergeParsed parsed acc).all.map (fun q => q.1),
          i ∈ acc.all.map (fun q => q.1) ∨ i ∈ S)
      ∧ (∀ i ∈ acc.all.map (fun q => q.1),
          i ∈ (mergeParsed parsed acc).all.map (fun q => q.1))
      ∧ (∀ i ∈ acc.completed, i ∈ (mergeParsed parsed acc).completed)
      ∧ (∀ p ∈ parsed, p.1 ∈ (mergeParsed parsed acc).all.map (fun q => q.1)) := by
  intro parsed
  induction parsed with
  | nil =>
    intro acc hp hnd hcs hsc
    simp only [mergeParsed]
    exact ⟨hnd, hcs, hsc, fun i hi => Or.inl hi, fun i hi => hi, fun i hi => hi,
      fun p hp' => absurd hp' (List.not_mem_nil p)⟩
  | cons q rest ih =>
    rcases q with ⟨i, t⟩
    intro acc hp hnd hcs hsc
    have hiS : i ∈ S := hp (i, t) (List.mem_cons_self _ _)
    by_cases hc : i ∈ acc.completed
    · have heq : mergeParsed ((i, t) :: rest) acc = mergeParsed rest acc := by
        rw [mergeParsed, if_pos hc]
      rw [heq]
      have hrec := ih acc (fun p hp' => hp p (List.mem_cons_of_mem _ hp')) hnd hcs hsc
      refine ⟨hrec.1, hrec.2.1, hrec.2.2.1, hrec.2.2.2.1, hrec.2.2.2.2.1,
        hrec.2.2.2.2.2.1, ?_⟩
      intro p hmem
      rcases List.mem_cons.mp hmem with rfl | hmem'
      · exact hrec.2.2.2.2.1 i (hcs i hc)
      · exact hrec.2.2.2.2.2.2 p hmem'
    · have hna : i ∉ acc.all.map (fun q => q.1) := fun hm => hc (hsc i hiS hm)
      have heq : mergeParsed ((i, t) :: rest) acc
          = mergeParsed rest ⟨acc.all ++ [(i, t)], acc.completed ++ [i]⟩ := by
        rw [mergeParsed, if_neg hc]
      rw [heq]
      have hidx' : (JobAcc.mk (acc.all ++ [(i, t)]) (acc.completed ++ [i])).all.map
          (fun q => q.1) = acc.all.map (fun q => q.1) ++ [i] := by simp
      have hnd' : ((JobAcc.mk (acc.all ++ [(i, t)]) (acc.completed ++ [i])).all.map
          (fun q => q.1)).Nodup := by
        rw [hidx', List.nodup_append]
        exact ⟨hnd, List.nodup_singleton i, by rwa [List.disjoint_singleton]⟩
      have hcs' : ∀ j ∈ (JobAcc.mk (acc.all ++ [(i, t)]) (acc.completed ++ [i])).completed,
          j ∈ (JobAcc.mk (acc.all ++ [(i, t)]) (acc.completed ++ [i])).all.map
            (fun q => q.1) := by
        intro j hj
        rw [hidx']
        rcases List.mem_append.mp hj with hj' | hj'
        · exact List.mem_append.mpr (Or.inl (hcs j hj'))
        · exact List.mem_append.mpr (Or.inr hj')
      have hsc' : ∀ j ∈ S,
          j ∈ (JobAcc.mk (acc.all ++ [(i, t)]) (acc.completed ++ [i])).all.map
            (fun q => q.1) →
          j ∈ (JobAcc.mk (acc.all ++ [(i, t)]) (acc.completed ++ [i])).completed := by
        intro j hjS hj
        rw [hidx'] at hj
        rcases List.mem_append.mp hj with hj' | hj'
        · exact List.mem_append.mpr (Or.inl (hsc j hjS hj'))
        · exact List.mem_append.mpr (Or.inr hj')
      have hrec := ih ⟨acc.all ++ [(i, t)], acc.completed ++ [i]⟩
        (fun p hp' => hp p (List.mem_cons_of_mem _ hp')) hnd' hcs' hsc'
      refine ⟨hrec.1, hrec.2.1, hrec.2.2.1, ?_, ?_, ?_, ?_⟩
      · intro j hj
        rcases hrec.2.2.2.1 j hj with hj' | hj'
        · rw [hidx'] at hj'
          rcases List.mem_append.mp hj' with h | h
          · exact Or.inl h
          · rcases List.mem_singleton.mp h with rfl
            exact Or.inr hiS
        · exact Or.inr hj'
      · intro j hj
        exact hrec.2.2.2.2.1 j (by rw [hidx']; exact List.mem_append.mpr (Or.inl hj))
      · intro j hj
        exact hrec.2.2.2.2.2.1 j (List.mem_append.mpr (Or.inl hj))
      · intro p hmem
        rcases List.mem_cons.mp hmem with rfl | hmem'
        · exact hrec.2.2.2.2.1 i
            (by rw [hidx']; exact List.mem_append.mpr (Or.inr (List.mem_singleton_self i)))
        · exact hrec.2.2.2.2.2.2 p hmem'

theorem mergeFailed_spec :
    ∀ (batch : List SubtitleLine) (acc : JobAcc),
      (batchIdxList batch).Nodup →
      (acc.all.map (fun q => q.1)).Nodup →
      (∀ i ∈ acc.completed, i ∈ acc.all.map (fun q => q.1)) →
      (∀ i ∈ batchIdxList batch, i ∈ acc.all.map (fun q => q.1) → i ∈ acc.completed) →
      ((mergeFailed batch acc).all.map (fun q => q.1)).Nodup
      ∧ (mergeFailed batch acc).completed = acc.completed
      ∧ (∀ i ∈ (mergeFailed batch acc).all.map (fun q => q.1),
          i ∈ acc.all.map (fun q => q.1) ∨ i ∈ batchIdxList batch)
      ∧ (∀ i ∈ acc.all.map (fun q => q.1),
          i ∈ (mergeFailed batch acc).all.map (fun q => q.1))
      ∧ (∀ i ∈ batchIdxList batch, i ∈ (mergeFailed batch acc).all.map (fun q => q.1)) := by
  intro batch
  induction batch with
  | nil =>
    intro acc hbn hnd hcs hbc
    refine ⟨hnd, rfl, fun i hi => Or.inl hi, fun i hi => hi,
      fun i hi => absurd hi (by simp [batchIdxList])⟩
  | cons l rest ih =>
    intro acc hbn hnd hcs hbc
    have hlB : l.index ∈ batchIdxList (l :: rest) := by simp [batchIdxList]
    have hbn' : (batchIdxList rest).Nodup := by
      have : batchIdxList (l :: rest) = l.index :: batchIdxList rest := by
        simp [batchIdxList]
      rw [this] at hbn
      exact hbn.of_cons
    have hlns : l.index ∉ batchIdxList rest := by
      have : batchIdxList (l :: rest) = l.index :: batchIdxList rest := by
        simp [batchIdxList]
      rw [this] at hbn
      exact (List.nodup_cons.mp hbn).1
    by_cases hc : l.index ∈ acc.completed
    · have heq : mergeFailed (l :: rest) acc = mergeFailed rest acc := by
        rw [mergeFailed, if_pos hc]
      rw [heq]
      have hrec := ih acc hbn' hnd hcs
        (fun i hi hm => hbc i (by simp [batchIdxList] at hi ⊢; exact Or.inr hi) hm)
      refine ⟨hrec.1, hrec.2.1, ?_, hrec.2.2.2.1, ?_⟩
      · intro i hi
        rcases hrec.2.2.1 i hi with h | h
        · exact Or.inl h
        · exact Or.inr (by simp [batchIdxList] at h ⊢; exact Or.inr h)
      · intro i hi
        rcases (by simpa [batchIdxList] using hi : i = l.index ∨ i ∈ batchIdxList rest) with rfl | h
        · exact hrec.2.2.2.1 l.index (hcs l.index hc)
        · exact hrec.2.2.2.2 i h
    · have hna : l.index ∉ acc.all.map (fun q => q.1) := fun hm => hc (hbc l.index hlB hm)
      have heq : mergeFailed (l :: rest) acc
          = mergeFailed rest ⟨acc.all ++ [(l.index, l.text)], acc.completed⟩ := by
        rw [mergeFailed, if_neg hc]
      rw [heq]
      have hidx' : (JobAcc.mk (acc.all ++ [(l.index, l.text)]) acc.completed).all.map
          (fun q => q.1) = acc.all.map (fun q => q.1) ++ [l.index] := by simp
      have hnd' : ((JobAcc.mk (acc.all ++ [(l.index, l.text)]) acc.completed).all.map
          (fun q => q.1)).Nodup := by
        rw [hidx', List.nodup_append]
        exact ⟨hnd, List.nodup_singleton _, by rwa [List.disjoint_singleton]⟩
      have hcs' : ∀ i ∈ (JobAcc.mk (acc.all ++ [(l.index, l.text)]) acc.completed).completed,
          i ∈ (JobAcc.mk (acc.all ++ [(l.index, l.text)]) acc.completed).all.map
            (fun q => q.1) := by
        intro i hi
        rw [hidx']
        exact List.mem_append.mpr (Or.inl (hcs i hi))
      have hbc' : ∀ i ∈ batchIdxList rest,
          i ∈ (JobAcc.mk (acc.all ++ [(l.index, l.text)]) acc.completed).all.map
            (fun q => q.1) →
          i ∈ (JobAcc.mk (acc.all ++ [(l.index, l.text)]) acc.completed).completed := by
        intro i hi hm
        rw [hidx'] at hm
        rcases List.mem_append.mp hm with h | h
        · exact hbc i (by simp [batchIdxList] at hi ⊢; exact Or.inr hi) h
        · rcases List.mem_singleton.mp h with rfl
          exact absurd hi hlns
      have hrec := ih ⟨acc.all ++ [(l.index, l.text)], acc.completed⟩ hbn' hnd' hcs' hbc'
      refine ⟨hrec.1, hrec.2.1, ?_, ?_, ?_⟩
      · intro i hi
        rcases hrec.2.2.1 i hi with h | h
        · rw [hidx'] at h
          rcases List.mem_append.mp h with h' | h'
          · exact Or.inl h'
          · rcases List.mem_singleton.mp h' with rfl
            exact Or.inr hlB
        · exact Or.inr (by simp [batchIdxList] at h ⊢; exact Or.inr h)
      · intro i hi
        exact hrec.2.2.2.1 i (by rw [hidx']; exact List.mem_append.mpr (Or.inl hi))
      · intro i hi
        rcases (by simpa [batchIdxList] using hi : i = l.index ∨ i ∈ batchIdxList rest) with rfl | h
        · exact hrec.2.2.2.1 l.index
            (by rw [hidx']; exact List.mem_append.mpr (Or.inr (List.mem_singleton_self _)))
        · exact hrec.2.2.2.2 i h

theorem processBatches_spec (respond : Nat → Option Str) :
    ∀ (B : List (Nat × List SubtitleLine)) (acc : JobAcc),
      ((B.map (fun p => batchIdxList p.2)).flatten).Nodup →
      (acc.all.map (fun q => q.1)).Nodup →
      (∀ i ∈ acc.completed, i ∈ acc.all.map (fun q => q.1)) →
      (∀ i ∈ (B.map (fun p => batchIdxList p.2)).flatten,
        i ∈ acc.all.map (fun q => q.1) → i ∈ acc.completed) →
      ((processBatches respond B acc).all.map (fun q => q.1)).Nodup
      ∧ (∀ i ∈ (processBatches respond B acc).all.map (fun q => q.1),
          i ∈ acc.all.map (fun q => q.1) ∨ i ∈ (B.map (fun p => batchIdxList p.2)).flatten)
      ∧ (∀ i ∈ acc.all.map (fun q => q.1),
          i ∈ (processBatches respond B acc).all.map (fun q => q.1))
      ∧ ((∀ bi b, (bi, b) ∈ B → ∀ raw, respond bi = some raw →
            ∀ i ∈ batchIdxList b, i ∈ (parse_response raw (batchIdxList b)).map (fun q => q.1)) →
          ∀ i ∈ (B.map (fun p => batchIdxList p.2)).flatten,
            i ∈ (processBatches respond B acc).all.map (fun q => q.1)) := by
  intro B
  induction B with
  | nil =>
    intro acc hjn hnd hcs hjc
    simp only [processBatches]
    exact ⟨hnd, fun i hi => Or.inl hi, fun i hi => hi, fun _ i hi => absurd hi (by simp)⟩
  | cons hd rest ih =>
    rcases hd with ⟨bi, b⟩
    intro acc hjn hnd hcs hjc
    have hflat : (((bi, b) :: rest).map (fun p => batchIdxList p.2)).flatten
        = batchIdxList b ++ (rest.map (fun p => batchIdxList p.2)).flatten := by simp
    rw [hflat] at hjn hjc
    have hSnd : (batchIdxList b).Nodup := (List.nodup_append.mp hjn).1
    have hRnd : ((rest.map (fun p => batchIdxList p.2)).flatten).Nodup :=
      (List.nodup_append.mp hjn).2.1
    have hdisj : (batchIdxList b).Disjoint ((rest.map (fun p => batchIdxList p.2)).flatten) :=
      (List.nodup_append.mp hjn).2.2
    by_cases hskip : ((batchIdxList b).all (fun i => decide (i ∈ acc.completed))) = true
    · have hsub : ∀ i ∈ batchIdxList b, i ∈ acc.completed := by
        intro i hi
        simpa using List.all_eq_true.mp hskip i hi
      have heq : processBatches respond ((bi, b) :: rest) acc
          = processBatches respond rest acc := by
        rw [processBatches]
        simp [hskip]
      rw [heq]
      have hrec := ih acc hRnd hnd hcs
        (fun i hi hm => hjc i (List.mem_append.mpr (Or.inr hi)) hm)
      refine ⟨hrec.1, ?_, hrec.2.2.1, ?_⟩
      · intro i hi
        rcases hrec.2.1 i hi with h | h
        · exact Or.inl h
        · exact Or.inr (by rw [hflat]; exact List.mem_append.mpr (Or.inr h))
      · intro hcov i hi
        rw [hflat] at hi
        rcases List.mem_append.mp hi with h | h
        · exact hrec.2.2.1 i (hcs i (hsub i h))
        · exact hrec.2.2.2
            (fun bi' b' hb' => hcov bi' b' (List.mem_cons_of_mem _ hb')) i h
    · rcases hresp : respond bi with _ | raw
      · -- failed batch: originals substituted
        have heq : processBatches respond ((bi, b) :: rest) acc
            = processBatches respond rest (mergeFailed b acc) := by
          rw [processBatches]
          simp [hskip, hresp]
        rw [heq]
        have hm2 := mergeFailed_spec b acc hSnd hnd hcs
          (fun i hi hm => hjc i (List.mem_append.mpr (Or.inl hi)) hm)
        have hcs2 : ∀ i ∈ (mergeFailed b acc).completed,
            i ∈ (mergeFailed b acc).all.map (fun q => q.1) := by
          intro i hi
          rw [hm2.2.1] at hi
          exact hm2.2.2.2.1 i (hcs i hi)
        have hjc2 : ∀ i ∈ (rest.map (fun p => batchIdxList p.2)).flatten,
            i ∈ (mergeFailed b acc).all.map (fun q => q.1) →
            i ∈ (mergeFailed b acc).completed := by
          intro i hi hm
          rcases hm2.2.2.1 i hm with h | h
          · rw [hm2.2.1]
            exact hjc i (List.mem_append.mpr (Or.inr hi)) h
          · exact absurd hi (hdisj h)
        have hrec := ih (mergeFailed b acc) hRnd hm2.1 hcs2 hjc2
        refine ⟨hrec.1, ?_, ?_, ?_⟩
        · intro i hi
          rcases hrec.2.1 i hi with h | h
          · rcases hm2.2.2.1 i h with h' | h'
            · exact Or.inl h'
            · exact Or.inr (by rw [hflat]; exact List.mem_append.mpr (Or.inl h'))
          · exact Or.inr (by rw [hflat]; exact List.mem_append.mpr (Or.inr h))
        · intro i hi
          exact hrec.2.2.1 i (hm2.2.2.2.1 i hi)
        · intro hcov i hi
          rw [hflat] at hi
          rcases List.mem_append.mp hi with h | h
          · exact hrec.2.2.1 i (hm2.2.2.2.2 i h)
          · exact hrec.2.2.2
              (fun bi' b' hb' => hcov bi' b' (List.mem_cons_of_mem _ hb')) i h
      · -- successful (possibly partial) batch
        have heq : processBatches respond ((bi, b) :: rest) acc
            = processBatches respond rest
                (mergeParsed (parse_response raw (batchIdxList b)) acc) := by
          rw [processBatches]
          simp [hskip, hresp]
        rw [heq]
        have hpS : ∀ p ∈ parse_response raw (batchIdxList b), p.1 ∈ batchIdxList b :=
          parse_response_idx_mem raw (batchIdxList b)
        have hm1 := mergeParsed_spec (batchIdxList b) (parse_response raw (batchIdxList b))
          acc hpS hnd hcs
          (fun i hi hm => hjc i (List.mem_append.mpr (Or.inl hi)) hm)
        have hjc2 : ∀ i ∈ (rest.map (fun p => batchIdxList p.2)).flatten,
            i ∈ (mergeParsed (parse_response raw (batchIdxList b)) acc).all.map
              (fun q => q.1) →
            i ∈ (mergeParsed (parse_response raw (batchIdxList b)) acc).completed := by
          intro i hi hm
          rcases hm1.2.2.2.1 i hm with h | h
          · exact hm1.2.2.2.2.2.1 i (hjc i (List.mem_append.mpr (Or.inr hi)) h)
          · exact absurd hi (hdisj h)
        have hrec := ih (mergeParsed (parse_response raw (batchIdxList b)) acc)
          hRnd hm1.1 hm1.2.1 hjc2
        refine ⟨hrec.1, ?_, ?_, ?_⟩
        · intro i hi
          rcases hrec.2.1 i hi with h | h
          · rcases hm1.2.2.2.1 i h with h' | h'
            · exact Or.inl h'
            · exact Or.inr (by rw [hflat]; exact List.mem_append.mpr (Or.inl h'))
          · exact Or.inr (by rw [hflat]; exact List.mem_append.mpr (Or.inr h))
        · intro i hi
          exact hrec.2.2.1 i (hm1.2.2.2.2.1 i hi)
        · intro hcov i hi
          rw [hflat] at hi
          rcases List.mem_append.mp hi with h | h
          · have hin := hcov bi b (List.mem_cons_self _ _) raw hresp i h
            rcases List.mem_map.mp hin with ⟨p, hpmem, hpeq⟩
            have := hm1.2.2.2.2.2.2 p hpmem
            rw [hpeq] at this
            exact hrec.2.2.1 i this
          · exact hrec.2.2.2
              (fun bi' b' hb' => hcov bi' b' (List.mem_cons_of_mem _ hb')) i h

theorem flatten_chunksF {α : Type} (bs : Nat) (hbs : 0 < bs) :
    ∀ (fuel : Nat) (l : List α), l.length ≤ fuel → (chunksF fuel bs l).flatten = l := by
  intro fuel
  induction fuel with
  | zero =>
    intro l hl
    have : l = [] := List.length_eq_zero.mp (Nat.le_zero.mp hl)
    subst this
    simp [chunksF]
  | succ f ih =>
    intro l hl
    cases l with
    | nil => simp [chunksF]
    | cons a t =>
      have hdrop : ((a :: t).drop bs).length ≤ f := by
        rw [List.length_drop]
        have h1 : (a :: t).length - bs ≤ (a :: t).length - 1 :=
          Nat.sub_le_sub_left hbs _
        have h2 : (a :: t).length - 1 ≤ f := by
          simpa using Nat.le_of_succ_le_succ (by simpa using hl)
        exact le_trans h1 h2
      calc (chunksF (f + 1) bs (a :: t)).flatten
          = (a :: t).take bs ++ (chunksF f bs ((a :: t).drop bs)).flatten := by
            rw [chunksF] <;> simp
        _ = (a :: t).take bs ++ (a :: t).drop bs := by rw [ih _ hdrop]
        _ = a :: t := List.take_append_drop bs (a :: t)

theorem flatten_enum_batchIdx (bs : Nat) (hbs : 0 < bs) (lines : List SubtitleLine) :
    (((chunks bs lines).enum.map (fun p => batchIdxList p.2)).flatten)
      = lines.map (fun l => l.index) := by
  have h1 : (chunks bs lines).enum.map (fun p => batchIdxList p.2)
      = (chunks bs lines).map batchIdxList := by
    conv_rhs => rw [← List.enum_map_snd (chunks bs lines)]
    rw [List.map_map]
    rfl
  rw [h1]
  have h2 : ((chunks bs lines).map batchIdxList).flatten
      = ((chunks bs lines).flatten).map (fun l => l.index) := by
    rw [List.map_flatten]
    rfl
  rw [h2, chunks, flatten_chunksF bs hbs lines.length lines le_rfl]

/-- Claim C2 counterexample: on a fresh two-line job whose single batch
succeeds only partially (the provider answers only "[1] X"), the merged
output of `translate_all` is [(1, "X")]: input index 2 appears zero times,
not exactly once. -/
theorem c2_counterexample :
    translate_all (fun _ => some "[1] X".toList)
        [⟨1, "a".toList, "Default".toList⟩, ⟨2, "b".toList, "Default".toList⟩] 25
      = [(1, "X".toList)]
    ∧ (2 : Nat) ∈ ([⟨1, "a".toList, "Default".toList⟩,
          ⟨2, "b".toList, "Default".toList⟩] : List SubtitleLine).map (fun l => l.index)
    ∧ (2 : Nat) ∉ (translate_all (fun _ => some "[1] X".toList)
        [⟨1, "a".toList, "Default".toList⟩, ⟨2, "b".toList, "Default".toList⟩] 25).map
          (fun q => q.1) := by
  decide

/-- Claim C2 (amended): for a fresh, uninterrupted job over lines with
distinct indices and a positive batch size, the merged output of
`translate_all` contains each input index at most once and no index
outside the input; it contains every input index exactly once provided
every batch that got a response had all of its indices parsed out of that
response (fully failed batches always contribute all their lines with the
original text, but an index missing from a partially successful batch's
parse is absent from the output). -/
theorem c2_index_integrity :
    ∀ (lines : List SubtitleLine) (batchSize : Nat) (respond : Nat → Option Str),
      0 < batchSize →
      (lines.map (fun l => l.index)).Nodup →
      ((translate_all respond lines batchSize).map (fun q => q.1)).Nodup
      ∧ (∀ i ∈ (translate_all respond lines batchSize).map (fun q => q.1),
          i ∈ lines.map (fun l => l.index))
      ∧ ((∀ bi b, (bi, b) ∈ (chunks batchSize lines).enum →
            ∀ raw, respond bi = some raw →
            ∀ i ∈ batchIdxList b,
              i ∈ (parse_response raw (batchIdxList b)).map (fun q => q.1)) →
          ((translate_all respond lines batchSize).map (fun q => q.1)).Perm
            (lines.map (fun l => l.index))) := by
  intro lines batchSize respond hbs hnd
  have hflat := flatten_enum_batchIdx batchSize hbs lines
  have hjn : (((chunks batchSize lines).enum.map (fun p => batchIdxList p.2)).flatten).Nodup := by
    rw [hflat]; exact hnd
  have hspec := processBatches_spec respond ((chunks batchSize lines).enum) ⟨[], []⟩
    hjn (by simp) (by simp) (by simp)
  have hperm : ((translate_all respond lines batchSize).map (fun q => q.1)).Perm
      ((processBatches respond ((chunks batchSize lines).enum) ⟨[], []⟩).all.map
        (fun q => q.1)) := by
    rw [translate_all]
    exact (List.perm_insertionSort _ _).map _
  refine ⟨?_, ?_, ?_⟩
  · exact hperm.nodup_iff.mpr hspec.1
  · intro i hi
    have hi' := hperm.mem_iff.mp hi
    rcases hspec.2.1 i hi' with h | h
    · simp at h
    · rw [hflat] at h; exact h
  · intro hcov
    have hall : ∀ i, i ∈ (processBatches respond ((chunks batchSize lines).enum)
        ⟨[], []⟩).all.map (fun q => q.1) ↔ i ∈ lines.map (fun l => l.index) := by
      intro i
      constructor
      · intro hi
        rcases hspec.2.1 i hi with h | h
        · simp at h
        · rw [hflat] at h; exact h
      · intro hi
        apply hspec.2.2.2 hcov
        rw [hflat]; exact hi
    exact hperm.trans ((List.perm_ext_iff_of_nodup hspec.1 hnd).mpr hall)

/-- Claim C2 witness: the amended theorem applied to a concrete two-line
job whose single batch is fully parsed. -/
theorem c2_index_integrity_witness :
    ((translate_all (fun _ => some "[1] X\n[2] Y".toList)
        [⟨1, "a".toList, "Default".toList⟩, ⟨2, "b".toList, "Default".toList⟩] 25).map
          (fun q => q.1)).Perm
      (([⟨1, "a".toList, "Default".toList⟩,
          ⟨2, "b".toList, "Default".toList⟩] : List SubtitleLine).map (fun l => l.index)) := by
  apply (c2_index_integrity
    [⟨1, "a".toList, "Default".toList⟩, ⟨2, "b".toList, "Default".toList⟩] 25
    (fun _ => some "[1] X\n[2] Y".toList) (by norm_num) (by decide)).2.2
  intro bi b hb raw hr
  have hb' : (bi, b) = (0, [⟨1, "a".toList, "Default".toList⟩,
      ⟨2, "b".toList, "Default".toList⟩]) := by
    have : (chunks 25 [(⟨1, "a".toList, "Default".toList⟩ : SubtitleLine),
        ⟨2, "b".toList, "Default".toList⟩]).enum
        = [(0, [⟨1, "a".toList, "Default".toList⟩, ⟨2, "b".toList, "Default".toList⟩])] := by
      decide
    rw [this] at hb
    exact List.mem_singleton.mp hb
  rcases Prod.mk.injEq .. ▸ hb' with ⟨rfl, rfl⟩
  rcases Option.some.injEq .. ▸ hr with rfl
  decide
